import Mathlib

/-!
Verification of the `Parihar07/system_design` design-pattern catalog.

Each section shallowly embeds one example program of the repository:
C++ classes become Lean structures, member functions become Lean
functions (stateful ones pass the state explicitly), `throw` becomes
`Except.error`, and console printing becomes an explicit list of
emitted messages where a claim mentions it.
-/

namespace SystemDesign

/-- `std::map` / `std::unordered_map` insertion-or-assignment
(`m[key] = value`), embedded on association lists: overwrite the value
at `key` if present, else insert the pair. -/
def mapInsert {κ α : Type} [DecidableEq κ] (m : List (κ × α)) (key : κ)
    (value : α) : List (κ × α) :=
  match m with
  | [] => [(key, value)]
  | (k, v) :: rest =>
      if k = key then (k, value) :: rest
      else (k, v) :: mapInsert rest key value

/-- `map::find` embedded on association lists: the value at `key`, or
`none` when the key is absent. -/
def mapFind {κ α : Type} [DecidableEq κ] (m : List (κ × α)) (key : κ) :
    Option α :=
  match m with
  | [] => none
  | (k, v) :: rest => if k = key then some v else mapFind rest key

theorem mapFind_mapInsert {κ α : Type} [DecidableEq κ] (m : List (κ × α))
    (k key : κ) (v : α) :
    mapFind (mapInsert m k v) key =
      if key = k then some v else mapFind m key := by
  induction m with
  | nil => simp [mapInsert, mapFind, eq_comm]
  | cons p rest ih =>
      obtain ⟨k', v'⟩ := p
      by_cases h1 : k' = k
      · subst h1
        by_cases h2 : key = k'
        · simp [mapInsert, mapFind, h2]
        · simp [mapInsert, mapFind, h2, Ne.symm h2]
      · by_cases h2 : k' = key
        · subst h2
          simp [mapInsert, mapFind, h1, Ne.symm h1]
        · simp [mapInsert, mapFind, h1, h2, ih]

theorem mapFind_eq_some_mem {κ α : Type} [DecidableEq κ]
    {m : List (κ × α)} {k : κ} {v : α} (h : mapFind m k = some v) :
    (k, v) ∈ m := by
  induction m with
  | nil => simp [mapFind] at h
  | cons p rest ih =>
      obtain ⟨k', v'⟩ := p
      by_cases hk : k' = k
      · subst hk
        simp [mapFind] at h
        simp [h]
      · simp [mapFind, hk] at h
        simp [ih h]

theorem mem_mapInsert {κ α : Type} [DecidableEq κ] {m : List (κ × α)}
    {k : κ} {v : α} {p : κ × α} (h : p ∈ mapInsert m k v) :
    p ∈ m ∨ p = (k, v) := by
  induction m with
  | nil => simpa [mapInsert] using h
  | cons q rest ih =>
      obtain ⟨k', v'⟩ := q
      by_cases hk : k' = k
      · subst hk
        simp [mapInsert] at h
        rcases h with h | h
        · exact Or.inr (by simp [h])
        · exact Or.inl (by simp [h])
      · simp [mapInsert, hk] at h
        rcases h with h | h
        · exact Or.inl (by simp [h])
        · rcases ih h with h' | h'
          · exact Or.inl (by simp [h'])
          · exact Or.inr h'

/- ====================================================================
Builder pattern: `builder_solution::HttpRequest` and
`HttpRequestBuilder` from
`design_principles/creational/06_builder_pattern.cpp`.
==================================================================== -/

namespace Builder

/-- Product of the builder.  Fields and defaults follow the private
C++ constructor `HttpRequest() : method("GET"), timeout(3000),
followRedirects(true), maxRetries(0)`; `std::string` members default
to `""` and the two `std::map` members to the empty map (embedded as
association lists). -/
structure HttpRequest where
  url : String
  method : String
  headers : List (String × String)
  queryParams : List (String × String)
  body : String
  timeout : Int
  followRedirects : Bool
  maxRetries : Int
deriving Repr, DecidableEq

/-- The freshly default-constructed request held by a new
`HttpRequestBuilder`. -/
def HttpRequest.default : HttpRequest :=
  { url := "", method := "GET", headers := [], queryParams := []
    body := "", timeout := 3000, followRedirects := true, maxRetries := 0 }

/-- One chained setter call on `HttpRequestBuilder`. -/
inductive BuilderOp where
  | setUrl (url : String)
  | setMethod (method : String)
  | addHeader (key value : String)
  | addQueryParam (key value : String)
  | setBody (body : String)
  | setTimeout (timeout : Int)
  | setFollowRedirects (follow : Bool)
  | setMaxRetries (retries : Int)
deriving Repr, DecidableEq

/-- Effect of one setter on the accumulated request, mirroring the
corresponding `HttpRequestBuilder` member verbatim. -/
def applyOp (r : HttpRequest) : BuilderOp → HttpRequest
  | .setUrl u => { r with url := u }
  | .setMethod m => { r with method := m }
  | .addHeader k v => { r with headers := mapInsert r.headers k v }
  | .addQueryParam k v => { r with queryParams := mapInsert r.queryParams k v }
  | .setBody b => { r with body := b }
  | .setTimeout t => { r with timeout := t }
  | .setFollowRedirects f => { r with followRedirects := f }
  | .setMaxRetries n => { r with maxRetries := n }

/-- The request accumulated by a sequence of chained setter calls on a
fresh `HttpRequestBuilder()`. -/
def accumulate (ops : List BuilderOp) : HttpRequest :=
  ops.foldl applyOp HttpRequest.default

/-- `HttpRequestBuilder::build()`: validate, throwing `runtime_error`
on an empty URL, an unknown method, or a negative timeout, else return
the accumulated request. -/
def build (r : HttpRequest) : Except String HttpRequest :=
  if r.url = "" then .error "URL is required!"
  else if r.method ≠ "GET" ∧ r.method ≠ "POST" ∧ r.method ≠ "PUT" ∧
      r.method ≠ "DELETE" then .error "Invalid HTTP method!"
  else if r.timeout < 0 then .error "Timeout cannot be negative!"
  else .ok r

end Builder

/- ====================================================================
Observer pattern: `observer_solution::WeatherStation` from the unnamed
source file `part_001`.  Observer pointers are embedded as naturals;
the `double` measurement fields as rationals (no arithmetic is
performed on them).  A call `observer->update(t, h, p)` is recorded as
an emitted event `(observer, t, h, p)`.
==================================================================== -/

namespace Observer

/-- `WeatherStation`'s data members: the `vector<Observer*> observers`
and the three measurement fields. -/
structure WeatherStation where
  observers : List Nat
  temperature : ℚ
  humidity : ℚ
  pressure : ℚ
deriving Repr, DecidableEq

/-- `WeatherStation() : temperature(25.0), humidity(60.0),
pressure(1013.0)` with an empty observer vector. -/
def WeatherStation.init : WeatherStation :=
  { observers := [], temperature := 25, humidity := 60, pressure := 1013 }

/-- `attach`: `observers.push_back(observer)`. -/
def attach (s : WeatherStation) (o : Nat) : WeatherStation :=
  { s with observers := s.observers ++ [o] }

/-- The `find` + `erase` idiom of `detach`: remove the first
occurrence of `o`, leave the vector unchanged when `o` is absent. -/
def eraseFirst : List Nat → Nat → List Nat
  | [], _ => []
  | x :: xs, o => if x = o then xs else x :: eraseFirst xs o

/-- `detach`: erase the first occurrence of `observer` if the `find`
succeeds. -/
def detach (s : WeatherStation) (o : Nat) : WeatherStation :=
  { s with observers := eraseFirst s.observers o }

/-- `notify`: call `update(temperature, humidity, pressure)` on each
attached observer in vector order; the calls are returned as events. -/
def notify (s : WeatherStation) : List (Nat × ℚ × ℚ × ℚ) :=
  s.observers.map fun o => (o, s.temperature, s.humidity, s.pressure)

/-- `setMeasurements(temp, hum, press)`: store the three fields, then
`notify()`.  Returns the updated station and the update calls made. -/
def setMeasurements (s : WeatherStation) (t h p : ℚ) :
    WeatherStation × List (Nat × ℚ × ℚ × ℚ) :=
  let s' : WeatherStation :=
    { s with temperature := t, humidity := h, pressure := p }
  (s', notify s')

theorem eraseFirst_of_not_mem {l : List Nat} {o : Nat} (h : o ∉ l) :
    eraseFirst l o = l := by
  induction l with
  | nil => rfl
  | cons x xs ih =>
      simp only [List.mem_cons, not_or] at h
      simp [eraseFirst, Ne.symm h.1, ih h.2]

theorem eraseFirst_of_mem {l : List Nat} {o : Nat} (h : o ∈ l) :
    ∃ l₁ l₂, l = l₁ ++ o :: l₂ ∧ o ∉ l₁ ∧ eraseFirst l o = l₁ ++ l₂ := by
  induction l with
  | nil => cases h
  | cons x xs ih =>
      by_cases hx : x = o
      · exact ⟨[], xs, by simp [hx], by simp, by simp [eraseFirst, hx]⟩
      · rcases ih (by simpa [Ne.symm hx] using h) with ⟨l₁, l₂, heq, hnm, herase⟩
        exact ⟨x :: l₁, l₂, by simp [heq], by simp [Ne.symm hx, hnm],
          by simp [eraseFirst, hx, herase]⟩

end Observer

/- ====================================================================
Thread-safe singleton: `thread_safe_singleton::CacheManager` from
`design_principles/creational/02_singleton_solution.cpp`.  The
repository never spawns a thread, so the double-checked locking in
`getInstance()` executes sequentially: under the lock the second null
check sees exactly what the first saw.  Heap pointers are embedded as
naturals with `0` playing `nullptr`; `new` hands out consecutive
addresses starting at `1`.
==================================================================== -/

namespace Singleton

/-- The program state relevant to `CacheManager`: the static `instance`
pointer, how often the private constructor has run, the next address
`new` would return, and the singleton's `cache` map. -/
structure CacheState where
  instancePtr : Option Nat
  ctorRuns : Nat
  nextAddr : Nat
  cache : List (String × String)
deriving Repr, DecidableEq

/-- Static initialization `CacheManager::instance = nullptr` at program
start: no instance, constructor never run. -/
def CacheState.init : CacheState :=
  { instancePtr := none, ctorRuns := 0, nextAddr := 1, cache := [] }

/-- `getInstance()` with double-checked locking, sequentialized (no
other thread can interleave between the two null checks): if
`instance == nullptr`, run the constructor via `new` and store the
fresh pointer; return the stored pointer. -/
def getInstance (s : CacheState) : Nat × CacheState :=
  match s.instancePtr with
  | some a => (a, s)
  | none =>
      (s.nextAddr,
       { s with instancePtr := some s.nextAddr,
                ctorRuns := s.ctorRuns + 1,
                nextAddr := s.nextAddr + 1 })

/-- The `CacheManager` operations the program can perform. -/
inductive CacheOp where
  | getInst
  | put (key value : String)
  | get (key : String)
  | size
deriving Repr, DecidableEq

/-- One operation: `getInstance` may create the instance and returns
its pointer (collected in the second component); `put` writes the
cache map; `get` and `size` only read. -/
def cacheStep (s : CacheState) : CacheOp → CacheState × List Nat
  | .getInst => let (a, s') := getInstance s; (s', [a])
  | .put k v => ({ s with cache := mapInsert s.cache k v }, [])
  | .get _ => (s, [])
  | .size => (s, [])

/-- Run a whole program (a sequence of `CacheManager` operations),
collecting every pointer `getInstance()` returned. -/
def cacheRun (s : CacheState) : List CacheOp → CacheState × List Nat
  | [] => (s, [])
  | op :: ops =>
      let (s', out) := cacheStep s op
      let (s'', outs) := cacheRun s' ops
      (s'', out ++ outs)

/-- Reachability invariant: either the singleton was never created, or
it was created exactly once at address `1`. -/
def CacheInv (s : CacheState) : Prop :=
  (s.instancePtr = none ∧ s.ctorRuns = 0 ∧ s.nextAddr = 1) ∨
  (s.instancePtr = some 1 ∧ s.ctorRuns = 1 ∧ s.nextAddr = 2)

theorem cacheStep_inv {s : CacheState} (h : CacheInv s) (op : CacheOp) :
    CacheInv (cacheStep s op).1 ∧ ∀ p ∈ (cacheStep s op).2, p = 1 := by
  cases op with
  | getInst =>
      rcases h with ⟨h1, h2, h3⟩ | ⟨h1, h2, h3⟩ <;>
        simp_all [cacheStep, getInstance, CacheInv]
  | put k v =>
      rcases h with ⟨h1, h2, h3⟩ | ⟨h1, h2, h3⟩ <;>
        simp_all [cacheStep, CacheInv]
  | get k =>
      rcases h with ⟨h1, h2, h3⟩ | ⟨h1, h2, h3⟩ <;>
        simp_all [cacheStep, CacheInv]
  | size =>
      rcases h with ⟨h1, h2, h3⟩ | ⟨h1, h2, h3⟩ <;>
        simp_all [cacheStep, CacheInv]

theorem cacheRun_inv {s : CacheState} (h : CacheInv s)
    (ops : List CacheOp) :
    CacheInv (cacheRun s ops).1 ∧ ∀ p ∈ (cacheRun s ops).2, p = 1 := by
  induction ops generalizing s with
  | nil => exact ⟨h, by simp [cacheRun]⟩
  | cons op ops ih =>
      obtain ⟨hstep, hout⟩ := cacheStep_inv h op
      obtain ⟨hrun, houts⟩ := ih hstep
      refine ⟨by simpa [cacheRun] using hrun, ?_⟩
      intro p hp
      simp only [cacheRun, List.mem_append] at hp
      rcases hp with hp | hp
      · exact hout p hp
      · exact houts p hp

end Singleton

/- ====================================================================
Interpreter pattern: the arithmetic-expression interpreter of
`design_principles/behavioral/11_interpreter_pattern.cpp` (`Context`
and the `Expression` hierarchy).  C++ `int` arithmetic is embedded as
`Int`; `throw std::runtime_error(...)` as `Except.error`.
==================================================================== -/

namespace Interpreter

/-- `Context`: the `unordered_map<string, int> variables_`. -/
def Context := List (String × Int)

/-- `Context::setVariable`: `variables_[name] = value`. -/
def setVariable (ctx : Context) (name : String) (value : Int) : Context :=
  mapInsert ctx name value

/-- `Context::getVariable`: return the bound value, or throw
`runtime_error("Variable not found: " + name)` when `find` fails. -/
def getVariable (ctx : Context) (name : String) : Except String Int :=
  match mapFind ctx name with
  | some v => .ok v
  | none => .error ("Variable not found: " ++ name)

/-- A context built from the default-constructed `Context` by a
sequence of `setVariable` calls. -/
def buildContext (sets : List (String × Int)) : Context :=
  sets.foldl (fun ctx p => setVariable ctx p.1 p.2) []

/-- The `Expression` class hierarchy: `NumberExpression`,
`VariableExpression`, and the addition / subtraction / multiplication
non-terminals. -/
inductive Expr where
  | num (n : Int)
  | var (name : String)
  | add (l r : Expr)
  | sub (l r : Expr)
  | mul (l r : Expr)
deriving Repr, DecidableEq

/-- The virtual `interpret(context)` of each `Expression` subclass; a
`runtime_error` thrown by `getVariable` propagates out. -/
def interpret : Expr → Context → Except String Int
  | .num n, _ => .ok n
  | .var name, ctx => getVariable ctx name
  | .add l r, ctx => do
      let a ← interpret l ctx
      let b ← interpret r ctx
      pure (a + b)
  | .sub l r, ctx => do
      let a ← interpret l ctx
      let b ← interpret r ctx
      pure (a - b)
  | .mul l r, ctx => do
      let a ← interpret l ctx
      let b ← interpret r ctx
      pure (a * b)

/-- A name is bound in a built context exactly when some `setVariable`
call set it. -/
theorem mapFind_buildContext (sets : List (String × Int)) (name : String) :
    mapFind (buildContext sets) name = none ↔ name ∉ sets.map Prod.fst := by
  suffices h : ∀ ctx : Context, mapFind
      (sets.foldl (fun c p => setVariable c p.1 p.2) ctx) name = none ↔
      name ∉ sets.map Prod.fst ∧ mapFind ctx name = none by
    simpa [buildContext, mapFind] using h []
  induction sets with
  | nil => intro ctx; simp
  | cons p rest ih =>
      intro ctx
      obtain ⟨k, v⟩ := p
      simp only [List.foldl_cons, List.map_cons, List.mem_cons]
      rw [ih]
      unfold setVariable
      rw [mapFind_mapInsert]
      by_cases h : name = k <;> simp [h]

end Interpreter

/- ====================================================================
Protection proxy: `ProtectedDocumentProxy`, `RealDocument` and
`Permission` from `design_principles/structural/07_proxy_pattern.cpp`.
Console lines are collected in output lists.
==================================================================== -/

namespace Proxy

/-- `enum class Permission { READ, WRITE, DELETE }`. -/
inductive Permission where
  | READ
  | WRITE
  | DELETE
deriving Repr, DecidableEq

/-- `static_cast<int>` on `Permission` (enumerator values 0, 1, 2). -/
def Permission.toInt : Permission → Int
  | .READ => 0
  | .WRITE => 1
  | .DELETE => 2

/-- `hasPermission(required)`: compare the enumerators as ints. -/
def hasPermission (user required : Permission) : Bool :=
  user.toInt ≥ required.toInt

/-- `RealDocument`: a name and the stored `content_` (initially `""`). -/
structure RealDocument where
  name : String
  content : String
deriving Repr, DecidableEq

/-- `RealDocument::read()`: print the name and content; no mutation. -/
def realRead (d : RealDocument) : List String :=
  ["[RealDocument] Reading: " ++ d.name, "Content: " ++ d.content]

/-- `RealDocument::write(content)`: store the content and print. -/
def realWrite (d : RealDocument) (content : String) :
    RealDocument × List String :=
  ({ d with content := content }, ["[RealDocument] Writing to: " ++ d.name])

/-- `RealDocument::deleteDocument()`: print only; the object keeps its
content. -/
def realDelete (d : RealDocument) : List String :=
  ["[RealDocument] Deleting: " ++ d.name]

/-- `ProtectedDocumentProxy`: the owned document and the user's
permission fixed at construction. -/
structure ProtectedDocumentProxy where
  document : RealDocument
  userPermission : Permission
deriving Repr, DecidableEq

/-- `ProtectedDocumentProxy::read()`. -/
def proxyRead (p : ProtectedDocumentProxy) :
    ProtectedDocumentProxy × List String :=
  if hasPermission p.userPermission .READ then (p, realRead p.document)
  else (p, ["[ProtectedProxy] Access denied: No read permission"])

/-- `ProtectedDocumentProxy::write(content)`. -/
def proxyWrite (p : ProtectedDocumentProxy) (content : String) :
    ProtectedDocumentProxy × List String :=
  if hasPermission p.userPermission .WRITE then
    let (d, out) := realWrite p.document content
    ({ p with document := d }, out)
  else (p, ["[ProtectedProxy] Access denied: No write permission"])

/-- `ProtectedDocumentProxy::deleteDocument()`. -/
def proxyDelete (p : ProtectedDocumentProxy) :
    ProtectedDocumentProxy × List String :=
  if hasPermission p.userPermission .DELETE then (p, realDelete p.document)
  else (p, ["[ProtectedProxy] Access denied: No delete permission"])

/-- The proxy's denial lines differ from every line the real document
can print: the second characters already differ. -/
theorem denied_delete_ne_realDelete (name : String) :
    "[ProtectedProxy] Access denied: No delete permission" ≠
      "[RealDocument] Deleting: " ++ name := by
  intro h
  have h' := congrArg (fun s => s.data.take 2) h
  simp only [String.data_append] at h'
  rw [List.take_append_of_le_length (by decide)] at h'
  exact absurd h' (by decide)

theorem denied_write_ne_realWrite (name : String) :
    "[ProtectedProxy] Access denied: No write permission" ≠
      "[RealDocument] Writing to: " ++ name := by
  intro h
  have h' := congrArg (fun s => s.data.take 2) h
  simp only [String.data_append] at h'
  rw [List.take_append_of_le_length (by decide)] at h'
  exact absurd h' (by decide)

end Proxy

/- ====================================================================
Caching proxy: `CachingWeatherProxy` over `RealWeatherService` from
`design_principles/structural/07_proxy_pattern.cpp`.
==================================================================== -/

namespace CachingProxy

/-- `RealWeatherService::getWeather` always returns this string. -/
def realWeather : String := "Sunny, 25°C"

/-- `CachingWeatherProxy::getWeather(city)`: on a cache hit return the
cached string without touching the service; on a miss call
`RealWeatherService::getWeather`, cache and return its answer.  The
boolean records whether the real service was invoked. -/
def getWeather (cache : List (String × String)) (city : String) :
    String × List (String × String) × Bool :=
  match mapFind cache city with
  | some v => (v, cache, false)
  | none => (realWeather, mapInsert cache city realWeather, true)

/-- Run a sequence of `getWeather` calls against the proxy, collecting
per call the returned string and whether the service was invoked. -/
def runWeather (cache : List (String × String)) :
    List String → List (String × Bool)
  | [] => []
  | city :: cities =>
      let (r, cache', inv) := getWeather cache city
      (r, inv) :: runWeather cache' cities

/-- The behavior C10 ascribes to the proxy, written from the claim:
every call answers with the first call's (hence the service's) string,
and the service is invoked exactly on the first call per distinct
city.  `processed` holds the cities already asked about. -/
def claimedWeather (processed : List String) :
    List String → List (String × Bool)
  | [] => []
  | city :: cities =>
      (realWeather, decide (city ∉ processed)) ::
        claimedWeather (processed ++ [city]) cities

/-- The run from any cache agreeing with `processed` (same keys, all
values the service's constant answer) follows the claimed behavior. -/
theorem runWeather_eq_claimed (cities : List String)
    (cache : List (String × String)) (processed : List String)
    (hm : ∀ k, mapFind cache k = none ↔ k ∉ processed)
    (hv : ∀ p ∈ cache, p.2 = realWeather) :
    runWeather cache cities = claimedWeather processed cities := by
  induction cities generalizing cache processed with
  | nil => rfl
  | cons city cities ih =>
      rcases hfind : mapFind cache city with - | v
      · have hnp : city ∉ processed := (hm city).mp hfind
        rw [runWeather, claimedWeather, getWeather, hfind]
        simp only [decide_eq_true (by exact hnp)]
        refine congrArg _ (ih _ _ ?_ ?_)
        · intro k
          rw [mapFind_mapInsert]
          by_cases hk : k = city
          · subst hk
            simp [hnp]
          · simp only [if_neg hk, hm k]
            simp [hk]
        · intro p hp
          rcases mem_mapInsert hp with h | h
          · exact hv p h
          · simp [h]
      · have hval : v = realWeather := hv _ (mapFind_eq_some_mem hfind)
        have hp : city ∈ processed := by
          by_contra hcon
          rw [← hm city] at hcon
          simp [hfind] at hcon
        rw [runWeather, claimedWeather, getWeather, hfind]
        simp only [hval, decide_eq_false (not_not_intro hp)]
        refine congrArg _ (ih _ _ ?_ hv)
        intro k
        rw [hm k]
        simp only [List.mem_append, List.mem_singleton, not_or]
        constructor
        · intro hk
          exact ⟨hk, fun he => hk (he ▸ hp)⟩
        · intro hk
          exact hk.1

end CachingProxy

/- ====================================================================
Prototype pattern, deep vs shallow copy: `copy_demonstration` from the
unnamed source file `part_005` (`Resource`, `ShallowCopyObject`,
`DeepCopyObject`).  The heap of `Resource` allocations is explicit:
`new Resource(d)` hands out the next address (starting at 1, with 0 as
`nullptr`), and a destructor's `delete resource` is recorded as a
delete event on that address.
==================================================================== -/

namespace Prototype

/-- The allocated `Resource`s: the address `new` returns next and the
map from live addresses to their `data` strings. -/
structure Heap where
  next : Nat
  mem : List (Nat × String)
deriving Repr, DecidableEq

/-- The heap before any allocation. -/
def Heap.empty : Heap := { next := 1, mem := [] }

/-- `new Resource(d)`: allocate at the next fresh address. -/
def newResource (h : Heap) (d : String) : Nat × Heap :=
  (h.next, { next := h.next + 1, mem := (h.next, d) :: h.mem })

/-- `ShallowCopyObject` / `DeepCopyObject` both consist of one
`Resource *resource` member; addresses are naturals. -/
structure ShallowCopyObject where
  resource : Nat
deriving Repr, DecidableEq

structure DeepCopyObject where
  resource : Nat
deriving Repr, DecidableEq

/-- `ShallowCopyObject(const string&)`: allocate a fresh resource. -/
def mkShallow (h : Heap) (data : String) : ShallowCopyObject × Heap :=
  let (a, h') := newResource h data
  (⟨a⟩, h')

/-- The shallow copy constructor: `resource = other.resource` — the
same pointer, no allocation. -/
def copyShallow (o : ShallowCopyObject) : ShallowCopyObject :=
  ⟨o.resource⟩

/-- `~ShallowCopyObject()`: `delete resource`, recorded as an event. -/
def destroyShallow (o : ShallowCopyObject) : List Nat :=
  [o.resource]

/-- `DeepCopyObject(const string&)`: allocate a fresh resource. -/
def mkDeep (h : Heap) (data : String) : DeepCopyObject × Heap :=
  let (a, h') := newResource h data
  (⟨a⟩, h')

/-- The deep copy constructor:
`resource = new Resource(other.resource->data)` — a fresh allocation
holding the data read through the original's pointer. -/
def copyDeep (h : Heap) (o : DeepCopyObject) : DeepCopyObject × Heap :=
  let d := (mapFind h.mem o.resource).getD ""
  let (a, h') := newResource h d
  (⟨a⟩, h')

/-- `DeepCopyObject::clone()`: `new DeepCopyObject(*this)` — it runs
the deep copy constructor. -/
def cloneDeep (h : Heap) (o : DeepCopyObject) : DeepCopyObject × Heap :=
  copyDeep h o

/-- `~DeepCopyObject()`: `delete resource`. -/
def destroyDeep (o : DeepCopyObject) : List Nat :=
  [o.resource]

/-- Every live address of a reachable heap is below `next`. -/
def HeapWF (h : Heap) : Prop :=
  ∀ p ∈ h.mem, p.1 < h.next

theorem mapFind_none_of_lt {m : List (Nat × String)} {a : Nat}
    (h : ∀ p ∈ m, p.1 < a) : mapFind m a = none := by
  induction m with
  | nil => rfl
  | cons p rest ih =>
      obtain ⟨k, v⟩ := p
      have hk : k < a := h (k, v) (List.mem_cons_self _ _)
      rw [mapFind, if_neg (by omega)]
      exact ih fun q hq => h q (List.mem_cons_of_mem _ hq)

end Prototype

/- ====================================================================
Decorator pattern: `SimpleCoffee` and the `CoffeeDecorator` subclasses
from the unnamed source file `part_004`.  `getCost()` computes in
`double`, so the embedding models IEEE-754 binary64 arithmetic on the
positive normal range the program uses: a value is a dyadic rational
`n / 2^e` whose significand `n` is kept to 53 bits by round-to-nearest,
ties-to-even, and each `+` rounds the exact sum.  (No overflow,
underflow, negative values or subnormals can occur for these costs.)
A second model, `costQ`, computes the same tree in exact rational
arithmetic for comparison.
==================================================================== -/

namespace Decorator

/-- How many low bits must be rounded away to bring `n` to 53
significant bits (0 when `n` already fits).  The fuel 64 covers all
significands below `2^117`, far beyond any sum reachable from the
coffee costs. -/
def excessBits (fuel n : Nat) : Nat :=
  match fuel with
  | 0 => 0
  | fuel + 1 => if n < 2 ^ 53 then 0 else excessBits fuel (n / 2) + 1

/-- Round `n / 2^s` to the nearest integer, ties to even (`s > 0`). -/
def roundNat (n s : Nat) : Nat :=
  let q := n / 2 ^ s
  let r := n % 2 ^ s
  let half := 2 ^ (s - 1)
  if r < half then q
  else if half < r then q + 1
  else if q % 2 = 0 then q else q + 1

/-- Round the dyadic `n / 2^e` to 53 significant bits
(round-to-nearest, ties-to-even): the binary64 rounding on the normal
range. -/
def round53 (n e : Nat) : Nat × Nat :=
  let s := excessBits 64 n
  if s = 0 then (n, e) else (roundNat n s, e - s)

/-- binary64 `+` on the modeled range: align the two dyadics, add
exactly, round the sum. -/
def fpAdd (x y : Nat × Nat) : Nat × Nat :=
  let m := max x.2 y.2
  round53 (x.1 * 2 ^ (m - x.2) + y.1 * 2 ^ (m - y.2)) m

/-- The rational value of a dyadic `n / 2^e`. -/
def toRat (x : Nat × Nat) : ℚ := (x.1 : ℚ) / 2 ^ x.2

/-- The double `2.0` (exact). -/
def fp20 : Nat × Nat := (4503599627370496, 51)

/-- The double `0.5` (exact). -/
def fp05 : Nat × Nat := (4503599627370496, 53)

/-- The double literal `0.2`: the binary64 value nearest `1/5`. -/
def fp02 : Nat × Nat := (7205759403792794, 55)

/-- The double literal `0.7`: the binary64 value nearest `7/10`. -/
def fp07 : Nat × Nat := (6305039478318694, 53)

/-- The double literal `0.6`: the binary64 value nearest `3/5`. -/
def fp06 : Nat × Nat := (5404319552844595, 53)

/-- The five literals are well-formed doubles: `2.0` and `0.5` are
exact, and each inexact literal has a 53-bit significand lying
strictly within half an ulp (`2^-(e+1)`) of its decimal, which makes
it the unique binary64 value nearest that decimal. -/
theorem fpLiterals_certified :
    toRat fp20 = 2 ∧ toRat fp05 = 1 / 2 ∧
    (2 ^ 52 ≤ fp02.1 ∧ fp02.1 < 2 ^ 53 ∧
      1 / 5 - 1 / 2 ^ 56 < toRat fp02 ∧ toRat fp02 < 1 / 5 + 1 / 2 ^ 56) ∧
    (2 ^ 52 ≤ fp07.1 ∧ fp07.1 < 2 ^ 53 ∧
      7 / 10 - 1 / 2 ^ 54 < toRat fp07 ∧ toRat fp07 < 7 / 10 + 1 / 2 ^ 54) ∧
    (2 ^ 52 ≤ fp06.1 ∧ fp06.1 < 2 ^ 53 ∧
      3 / 5 - 1 / 2 ^ 54 < toRat fp06 ∧ toRat fp06 < 3 / 5 + 1 / 2 ^ 54) := by
  refine ⟨by norm_num [toRat, fp20], by norm_num [toRat, fp05], ?_, ?_, ?_⟩ <;>
    refine ⟨by norm_num [fp02, fp07, fp06], by norm_num [fp02, fp07, fp06],
      by norm_num [toRat, fp02, fp07, fp06], by norm_num [toRat, fp02, fp07, fp06]⟩

/-- A drink: a `SimpleCoffee` wrapped in decorator layers. -/
inductive Coffee where
  | simple
  | milk (c : Coffee)
  | sugar (c : Coffee)
  | whippedCream (c : Coffee)
  | caramel (c : Coffee)
deriving Repr, DecidableEq

/-- `getCost()` as the program computes it: `SimpleCoffee` returns
`2.0`, each decorator returns `coffee_->getCost() + <increment>` in
binary64. -/
def getCostFP : Coffee → Nat × Nat
  | .simple => fp20
  | .milk c => fpAdd (getCostFP c) fp05
  | .sugar c => fpAdd (getCostFP c) fp02
  | .whippedCream c => fpAdd (getCostFP c) fp07
  | .caramel c => fpAdd (getCostFP c) fp06

/-- `getCost()` recomputed in exact rational arithmetic, each literal
replaced by its decimal value. -/
def costQ : Coffee → ℚ
  | .simple => 2
  | .milk c => costQ c + 1 / 2
  | .sugar c => costQ c + 1 / 5
  | .whippedCream c => costQ c + 7 / 10
  | .caramel c => costQ c + 3 / 5

/-- The per-layer increments of a drink, outermost first. -/
def layers : Coffee → List ℚ
  | .simple => []
  | .milk c => 1 / 2 :: layers c
  | .sugar c => 1 / 5 :: layers c
  | .whippedCream c => 7 / 10 :: layers c
  | .caramel c => 3 / 5 :: layers c

theorem costQ_eq_sum (c : Coffee) : costQ c = 2 + (layers c).sum := by
  induction c with
  | simple => simp [costQ, layers]
  | milk c ih => rw [costQ, layers, List.sum_cons, ih]; ring
  | sugar c ih => rw [costQ, layers, List.sum_cons, ih]; ring
  | whippedCream c ih => rw [costQ, layers, List.sum_cons, ih]; ring
  | caramel c ih => rw [costQ, layers, List.sum_cons, ih]; ring

end Decorator

end SystemDesign

/-- C2 counterexample: in the binary64 arithmetic `getCost()` actually
performs, the cost is not independent of the wrapping order:
caramel over whipped cream over simple coffee costs
`(2.0 + 0.7) + 0.6 = 7430939385161319 / 2^51`, while whipped cream
over caramel costs `(2.0 + 0.6) + 0.7 = 7430939385161318 / 2^51` — the
two doubles differ by one ulp. -/
theorem decorator_cost_order_dependent :
    SystemDesign.Decorator.getCostFP
        (.caramel (.whippedCream .simple)) = (7430939385161319, 51) ∧
    SystemDesign.Decorator.getCostFP
        (.whippedCream (.caramel .simple)) = (7430939385161318, 51) ∧
    SystemDesign.Decorator.toRat (SystemDesign.Decorator.getCostFP
        (.caramel (.whippedCream .simple))) ≠
      SystemDesign.Decorator.toRat (SystemDesign.Decorator.getCostFP
        (.whippedCream (.caramel .simple))) := by
  refine ⟨by decide, by decide, ?_⟩
  intro h
  rw [show SystemDesign.Decorator.getCostFP
        (.caramel (.whippedCream .simple)) = (7430939385161319, 51) from
      by decide,
    show SystemDesign.Decorator.getCostFP
        (.whippedCream (.caramel .simple)) = (7430939385161318, 51) from
      by decide] at h
  norm_num [SystemDesign.Decorator.toRat] at h

/-- C2 as amended: with the additions carried out in exact arithmetic
(each literal read as its decimal value), the cost of any stack of
decorators around a `SimpleCoffee` is `2` plus the sum of the
per-layer increments, and hence two drinks whose layer multisets agree
— any reordering of the same wrapping — cost the same. -/
theorem decorator_costQ_linear (c c' : SystemDesign.Decorator.Coffee)
    (hperm : List.Perm (SystemDesign.Decorator.layers c)
      (SystemDesign.Decorator.layers c')) :
    SystemDesign.Decorator.costQ c =
      2 + (SystemDesign.Decorator.layers c).sum ∧
    SystemDesign.Decorator.costQ c = SystemDesign.Decorator.costQ c' := by
  refine ⟨SystemDesign.Decorator.costQ_eq_sum c, ?_⟩
  rw [SystemDesign.Decorator.costQ_eq_sum c,
    SystemDesign.Decorator.costQ_eq_sum c', hperm.sum_eq]

/-- Witness for the amended C2: sugar-over-milk and milk-over-sugar
have permuted layer lists, both cost `27/10` exactly. -/
theorem decorator_costQ_linear_witness :
    SystemDesign.Decorator.costQ (.sugar (.milk .simple)) = 27 / 10 ∧
    SystemDesign.Decorator.costQ (.sugar (.milk .simple)) =
      SystemDesign.Decorator.costQ (.milk (.sugar .simple)) := by
  obtain ⟨h1, h2⟩ := decorator_costQ_linear (.sugar (.milk .simple))
    (.milk (.sugar .simple))
    (by simpa [SystemDesign.Decorator.layers] using
      List.Perm.swap ((1 : ℚ) / 2) (1 / 5) [])
  refine ⟨?_, h2⟩
  rw [h1]
  norm_num [SystemDesign.Decorator.layers]

/-- C6: from any reachable heap, deep-copying a `DeepCopyObject`
(`clone()` runs the same copy constructor) allocates a fresh
`Resource` with equal data — the copy's pointer differs from the
original's, both point at resources holding the original's data, and
destroying both deletes two distinct addresses exactly once each —
whereas shallow-copying a `ShallowCopyObject` makes both objects hold
the same pointer, so destroying both deletes that same address
twice. -/
theorem prototype_deep_vs_shallow_copy
    (h : SystemDesign.Prototype.Heap)
    (o : SystemDesign.Prototype.DeepCopyObject) (d : String)
    (s : SystemDesign.Prototype.ShallowCopyObject)
    (hwf : SystemDesign.Prototype.HeapWF h)
    (ho : SystemDesign.mapFind h.mem o.resource = some d) :
    SystemDesign.Prototype.cloneDeep h o =
      SystemDesign.Prototype.copyDeep h o ∧
    (SystemDesign.Prototype.copyDeep h o).1.resource ≠ o.resource ∧
    SystemDesign.mapFind h.mem
      (SystemDesign.Prototype.copyDeep h o).1.resource = none ∧
    SystemDesign.mapFind (SystemDesign.Prototype.copyDeep h o).2.mem
      (SystemDesign.Prototype.copyDeep h o).1.resource = some d ∧
    SystemDesign.mapFind (SystemDesign.Prototype.copyDeep h o).2.mem
      o.resource = some d ∧
    (SystemDesign.Prototype.destroyDeep o ++
      SystemDesign.Prototype.destroyDeep
        (SystemDesign.Prototype.copyDeep h o).1).count o.resource = 1 ∧
    (SystemDesign.Prototype.destroyDeep o ++
      SystemDesign.Prototype.destroyDeep
        (SystemDesign.Prototype.copyDeep h o).1).count
      (SystemDesign.Prototype.copyDeep h o).1.resource = 1 ∧
    (SystemDesign.Prototype.copyShallow s).resource = s.resource ∧
    SystemDesign.Prototype.destroyShallow s ++
      SystemDesign.Prototype.destroyShallow
        (SystemDesign.Prototype.copyShallow s) =
      [s.resource, s.resource] ∧
    (SystemDesign.Prototype.destroyShallow s ++
      SystemDesign.Prototype.destroyShallow
        (SystemDesign.Prototype.copyShallow s)).count s.resource = 2 := by
  have hlt : o.resource < h.next :=
    hwf (o.resource, d) (SystemDesign.mapFind_eq_some_mem ho)
  have hne : h.next ≠ o.resource := by omega
  refine ⟨rfl, ?_, ?_, ?_, ?_, ?_, ?_, rfl, rfl, ?_⟩
  · simpa [SystemDesign.Prototype.copyDeep,
      SystemDesign.Prototype.newResource] using fun he => hne he
  · exact SystemDesign.Prototype.mapFind_none_of_lt hwf
  · simp [SystemDesign.Prototype.copyDeep,
      SystemDesign.Prototype.newResource, SystemDesign.mapFind, ho]
  · simp [SystemDesign.Prototype.copyDeep,
      SystemDesign.Prototype.newResource, SystemDesign.mapFind, hne, ho]
  · simp [SystemDesign.Prototype.destroyDeep,
      SystemDesign.Prototype.copyDeep,
      SystemDesign.Prototype.newResource, List.count_cons, hne]
  · simp [SystemDesign.Prototype.destroyDeep,
      SystemDesign.Prototype.copyDeep,
      SystemDesign.Prototype.newResource, List.count_cons, hne]
  · simp [SystemDesign.Prototype.destroyShallow,
      SystemDesign.Prototype.copyShallow, List.count_cons]

/-- Witness for C6: allocate `Original` at address 1, deep-copy it —
the copy lives at address 2 with equal data and destroying both
deletes addresses 1 and 2 once each — and shallow-copy an object whose
resource is address 1: both destructors delete address 1. -/
theorem prototype_deep_vs_shallow_copy_witness :
    (SystemDesign.Prototype.copyDeep
        (SystemDesign.Prototype.mkDeep
          SystemDesign.Prototype.Heap.empty "Original").2
        (SystemDesign.Prototype.mkDeep
          SystemDesign.Prototype.Heap.empty "Original").1).1.resource ≠
      (SystemDesign.Prototype.mkDeep
        SystemDesign.Prototype.Heap.empty "Original").1.resource ∧
    SystemDesign.mapFind
      (SystemDesign.Prototype.copyDeep
        (SystemDesign.Prototype.mkDeep
          SystemDesign.Prototype.Heap.empty "Original").2
        (SystemDesign.Prototype.mkDeep
          SystemDesign.Prototype.Heap.empty "Original").1).2.mem
      (SystemDesign.Prototype.copyDeep
        (SystemDesign.Prototype.mkDeep
          SystemDesign.Prototype.Heap.empty "Original").2
        (SystemDesign.Prototype.mkDeep
          SystemDesign.Prototype.Heap.empty "Original").1).1.resource =
      some "Original" ∧
    (SystemDesign.Prototype.destroyShallow ⟨1⟩ ++
      SystemDesign.Prototype.destroyShallow
        (SystemDesign.Prototype.copyShallow ⟨1⟩)).count 1 = 2 := by
  obtain ⟨-, hne, -, hdata, -, -, -, -, -, hcount⟩ :=
    prototype_deep_vs_shallow_copy
      (SystemDesign.Prototype.mkDeep
        SystemDesign.Prototype.Heap.empty "Original").2
      (SystemDesign.Prototype.mkDeep
        SystemDesign.Prototype.Heap.empty "Original").1
      "Original" ⟨1⟩
      (by
        intro p hp
        simp only [SystemDesign.Prototype.mkDeep,
          SystemDesign.Prototype.newResource,
          SystemDesign.Prototype.Heap.empty, List.mem_cons,
          List.not_mem_nil, or_false] at hp
        subst hp
        decide)
      (by rfl)
  exact ⟨hne, hdata, hcount⟩

/-- C10: against a fresh `CachingWeatherProxy`, a sequence of
`getWeather` calls behaves exactly as claimed: every call returns the
same string as the first call for its city (here the service's only
answer), and `RealWeatherService::getWeather` is invoked precisely on
the first call per distinct city — all later calls for that city are
answered from the cache without invoking the service. -/
theorem cachingProxy_first_call_only (cities : List String) :
    SystemDesign.CachingProxy.runWeather [] cities =
      SystemDesign.CachingProxy.claimedWeather [] cities ∧
    ∀ out ∈ SystemDesign.CachingProxy.runWeather [] cities,
      out.1 = SystemDesign.CachingProxy.realWeather := by
  have h := SystemDesign.CachingProxy.runWeather_eq_claimed cities [] []
    (by intro k; simp [SystemDesign.mapFind]) (by intro p hp; cases hp)
  refine ⟨h, ?_⟩
  rw [h]
  clear h
  generalize ([] : List String) = processed
  induction cities generalizing processed with
  | nil => intro out hout; cases hout
  | cons city cities ih =>
      intro out hout
      rw [SystemDesign.CachingProxy.claimedWeather] at hout
      rcases List.mem_cons.mp hout with h | h
      · simp [h]
      · exact ih _ out h

/-- C9: with permissions ordered READ < WRITE < DELETE by their
enumerator values, each proxy operation delegates to the underlying
`RealDocument` if and only if the held permission is at least the
operation's required one (READ for `read`, WRITE for `write`, DELETE
for `deleteDocument`); when the check fails, only the access-denied
message is printed and the underlying document — in particular its
content — is unchanged. -/
theorem protectedProxy_permission_gates
    (doc : SystemDesign.Proxy.RealDocument)
    (perm : SystemDesign.Proxy.Permission) (content : String) :
    ((SystemDesign.Proxy.proxyRead ⟨doc, perm⟩).2 =
        SystemDesign.Proxy.realRead doc ↔
      perm.toInt ≥ SystemDesign.Proxy.Permission.toInt .READ) ∧
    (SystemDesign.Proxy.proxyRead ⟨doc, perm⟩).1 = ⟨doc, perm⟩ ∧
    (¬ perm.toInt ≥ SystemDesign.Proxy.Permission.toInt .READ →
      (SystemDesign.Proxy.proxyRead ⟨doc, perm⟩).2 =
        ["[ProtectedProxy] Access denied: No read permission"]) ∧
    ((SystemDesign.Proxy.proxyWrite ⟨doc, perm⟩ content).2 =
        ["[RealDocument] Writing to: " ++ doc.name] ∧
      (SystemDesign.Proxy.proxyWrite ⟨doc, perm⟩ content).1.document =
        { doc with content := content } ↔
      perm.toInt ≥ SystemDesign.Proxy.Permission.toInt .WRITE) ∧
    (¬ perm.toInt ≥ SystemDesign.Proxy.Permission.toInt .WRITE →
      (SystemDesign.Proxy.proxyWrite ⟨doc, perm⟩ content).1 = ⟨doc, perm⟩ ∧
      (SystemDesign.Proxy.proxyWrite ⟨doc, perm⟩ content).2 =
        ["[ProtectedProxy] Access denied: No write permission"]) ∧
    ((SystemDesign.Proxy.proxyDelete ⟨doc, perm⟩).2 =
        SystemDesign.Proxy.realDelete doc ↔
      perm.toInt ≥ SystemDesign.Proxy.Permission.toInt .DELETE) ∧
    (SystemDesign.Proxy.proxyDelete ⟨doc, perm⟩).1 = ⟨doc, perm⟩ ∧
    (¬ perm.toInt ≥ SystemDesign.Proxy.Permission.toInt .DELETE →
      (SystemDesign.Proxy.proxyDelete ⟨doc, perm⟩).2 =
        ["[ProtectedProxy] Access denied: No delete permission"]) := by
  cases perm <;>
    simp [SystemDesign.Proxy.proxyRead, SystemDesign.Proxy.proxyWrite,
      SystemDesign.Proxy.proxyDelete, SystemDesign.Proxy.hasPermission,
      SystemDesign.Proxy.Permission.toInt, SystemDesign.Proxy.realRead,
      SystemDesign.Proxy.realWrite, SystemDesign.Proxy.realDelete,
      SystemDesign.Proxy.denied_delete_ne_realDelete doc.name,
      SystemDesign.Proxy.denied_write_ne_realWrite doc.name]

/-- Witness for C9 with WRITE permission on the document
`confidential.txt`: `read` and `write` delegate, `deleteDocument` is
denied and the document (content included) is untouched. -/
theorem protectedProxy_permission_gates_witness :
    (SystemDesign.Proxy.proxyRead
        ⟨⟨"confidential.txt", ""⟩, .WRITE⟩).2 =
      ["[RealDocument] Reading: confidential.txt", "Content: "] ∧
    (SystemDesign.Proxy.proxyWrite
        ⟨⟨"confidential.txt", ""⟩, .WRITE⟩ "Top secret data").1.document =
      ⟨"confidential.txt", "Top secret data"⟩ ∧
    (SystemDesign.Proxy.proxyDelete
        ⟨⟨"confidential.txt", ""⟩, .WRITE⟩).1 =
      ⟨⟨"confidential.txt", ""⟩, .WRITE⟩ ∧
    (SystemDesign.Proxy.proxyDelete
        ⟨⟨"confidential.txt", ""⟩, .WRITE⟩).2 =
      ["[ProtectedProxy] Access denied: No delete permission"] := by
  obtain ⟨hr, -, -, hw, -, -, hdstate, hd⟩ :=
    protectedProxy_permission_gates ⟨"confidential.txt", ""⟩ .WRITE
      "Top secret data"
  exact ⟨by simpa [SystemDesign.Proxy.realRead] using hr.mpr (by decide),
    (hw.mpr (by decide)).2, hdstate, hd (by decide)⟩

/-- C8: over every context reachable by `setVariable` calls,
`NumberExpression::interpret` returns its stored number,
`VariableExpression::interpret` returns `getVariable` of its name, the
addition / subtraction / multiplication expressions return the sum,
difference, and product of their subexpressions' interpretations, and
`Context::getVariable` (hence `VariableExpression::interpret`) throws
`runtime_error` exactly when the requested name was never set. -/
theorem interpreter_interpret_correct (sets : List (String × Int))
    (name : String) (n a b : Int) (l r : SystemDesign.Interpreter.Expr) :
    SystemDesign.Interpreter.interpret (.num n)
      (SystemDesign.Interpreter.buildContext sets) = Except.ok n ∧
    SystemDesign.Interpreter.interpret (.var name)
      (SystemDesign.Interpreter.buildContext sets) =
      SystemDesign.Interpreter.getVariable
        (SystemDesign.Interpreter.buildContext sets) name ∧
    (SystemDesign.Interpreter.getVariable
        (SystemDesign.Interpreter.buildContext sets) name =
        Except.error ("Variable not found: " ++ name) ↔
      name ∉ sets.map Prod.fst) ∧
    (SystemDesign.Interpreter.interpret l
        (SystemDesign.Interpreter.buildContext sets) = Except.ok a →
     SystemDesign.Interpreter.interpret r
        (SystemDesign.Interpreter.buildContext sets) = Except.ok b →
     SystemDesign.Interpreter.interpret (.add l r)
        (SystemDesign.Interpreter.buildContext sets) = Except.ok (a + b) ∧
     SystemDesign.Interpreter.interpret (.sub l r)
        (SystemDesign.Interpreter.buildContext sets) = Except.ok (a - b) ∧
     SystemDesign.Interpreter.interpret (.mul l r)
        (SystemDesign.Interpreter.buildContext sets) = Except.ok (a * b)) := by
  refine ⟨rfl, rfl, ?_, ?_⟩
  · rw [← SystemDesign.Interpreter.mapFind_buildContext sets name]
    unfold SystemDesign.Interpreter.getVariable
    cases SystemDesign.mapFind
        (SystemDesign.Interpreter.buildContext sets) name <;> simp
  · intro ha hb
    refine ⟨?_, ?_, ?_⟩ <;>
      · simp only [SystemDesign.Interpreter.interpret, ha, hb]
        rfl

/-- Witness for C8 on the demo context `x = 10, y = 5`: `x + y`
evaluates to `15`, `x - y` to `5`, `x * y` to `50`, and looking up the
never-set variable `z` throws. -/
theorem interpreter_interpret_correct_witness :
    SystemDesign.Interpreter.interpret (.add (.var "x") (.var "y"))
      (SystemDesign.Interpreter.buildContext [("x", 10), ("y", 5)]) =
      Except.ok 15 ∧
    SystemDesign.Interpreter.interpret (.sub (.var "x") (.var "y"))
      (SystemDesign.Interpreter.buildContext [("x", 10), ("y", 5)]) =
      Except.ok 5 ∧
    SystemDesign.Interpreter.interpret (.mul (.var "x") (.var "y"))
      (SystemDesign.Interpreter.buildContext [("x", 10), ("y", 5)]) =
      Except.ok 50 ∧
    SystemDesign.Interpreter.getVariable
      (SystemDesign.Interpreter.buildContext [("x", 10), ("y", 5)]) "z" =
      Except.error "Variable not found: z" := by
  obtain ⟨-, -, -, hops⟩ := interpreter_interpret_correct
    [("x", 10), ("y", 5)] "z" 0 10 5 (.var "x") (.var "y")
  obtain ⟨hadd, hsub, hmul⟩ := hops (by rfl) (by rfl)
  obtain ⟨-, -, hlook, -⟩ := interpreter_interpret_correct
    [("x", 10), ("y", 5)] "z" 0 10 5 (.var "x") (.var "y")
  exact ⟨by simpa using hadd, by simpa using hsub, by simpa using hmul,
    hlook.mpr (by decide)⟩

/-- C3: in the single-threaded execution the repository performs, every
pointer returned by `CacheManager::getInstance()` over any sequence of
`CacheManager` operations from program start is non-null and equal to
every other returned pointer, and the `CacheManager` constructor runs
at most once across the whole program. -/
theorem singleton_getInstance_unique
    (ops : List SystemDesign.Singleton.CacheOp) :
    (∀ p ∈ (SystemDesign.Singleton.cacheRun
        SystemDesign.Singleton.CacheState.init ops).2, p ≠ 0) ∧
    (∀ p ∈ (SystemDesign.Singleton.cacheRun
        SystemDesign.Singleton.CacheState.init ops).2,
      ∀ q ∈ (SystemDesign.Singleton.cacheRun
        SystemDesign.Singleton.CacheState.init ops).2, p = q) ∧
    (SystemDesign.Singleton.cacheRun
        SystemDesign.Singleton.CacheState.init ops).1.ctorRuns ≤ 1 := by
  obtain ⟨hinv, hout⟩ := SystemDesign.Singleton.cacheRun_inv
    (s := SystemDesign.Singleton.CacheState.init)
    (Or.inl ⟨rfl, rfl, rfl⟩) ops
  refine ⟨?_, ?_, ?_⟩
  · intro p hp
    rw [hout p hp]
    exact one_ne_zero
  · intro p hp q hq
    rw [hout p hp, hout q hq]
  · rcases hinv with ⟨_, h, _⟩ | ⟨_, h, _⟩ <;> omega

/-- Witness for C3: a concrete program with two `getInstance()` calls
around cache traffic returns the pointer `1` twice, never null, and
leaves the constructor-run count at one. -/
theorem singleton_getInstance_unique_witness :
    (SystemDesign.Singleton.cacheRun SystemDesign.Singleton.CacheState.init
      [SystemDesign.Singleton.CacheOp.getInst,
       SystemDesign.Singleton.CacheOp.put "user:1001" "John Doe",
       SystemDesign.Singleton.CacheOp.getInst,
       SystemDesign.Singleton.CacheOp.size]).2 = [1, 1] ∧
    (1 : Nat) ≠ 0 ∧
    (SystemDesign.Singleton.cacheRun SystemDesign.Singleton.CacheState.init
      [SystemDesign.Singleton.CacheOp.getInst,
       SystemDesign.Singleton.CacheOp.put "user:1001" "John Doe",
       SystemDesign.Singleton.CacheOp.getInst,
       SystemDesign.Singleton.CacheOp.size]).1.ctorRuns ≤ 1 :=
  ⟨by decide,
   (singleton_getInstance_unique
      [SystemDesign.Singleton.CacheOp.getInst,
       SystemDesign.Singleton.CacheOp.put "user:1001" "John Doe",
       SystemDesign.Singleton.CacheOp.getInst,
       SystemDesign.Singleton.CacheOp.size]).1 1 (by decide),
   (singleton_getInstance_unique
      [SystemDesign.Singleton.CacheOp.getInst,
       SystemDesign.Singleton.CacheOp.put "user:1001" "John Doe",
       SystemDesign.Singleton.CacheOp.getInst,
       SystemDesign.Singleton.CacheOp.size]).2.2⟩

/-- C4: `setMeasurements(t, h, p)` first stores `t`, `h`, `p` into the
station's fields (leaving the observer list untouched) and then calls
`update(t, h, p)` exactly once on each currently attached observer, in
attachment order, passing the newly stored values: the emitted call
sequence is exactly the observer list mapped to `(o, t, h, p)`. -/
theorem weatherStation_setMeasurements_notifies
    (s : SystemDesign.Observer.WeatherStation) (t h p : ℚ) :
    (SystemDesign.Observer.setMeasurements s t h p).1.temperature = t ∧
    (SystemDesign.Observer.setMeasurements s t h p).1.humidity = h ∧
    (SystemDesign.Observer.setMeasurements s t h p).1.pressure = p ∧
    (SystemDesign.Observer.setMeasurements s t h p).1.observers = s.observers ∧
    (SystemDesign.Observer.setMeasurements s t h p).2 =
      s.observers.map (fun o => (o, t, h, p)) := by
  refine ⟨rfl, rfl, rfl, rfl, ?_⟩
  rfl

/-- C5: `attach(o)` appends `o` to the end of the observer list;
`detach(o)` removes exactly the first occurrence of `o` (shrinking the
list by one) when `o` is attached, and leaves the list unchanged when
`o` is not in it. -/
theorem weatherStation_attach_detach
    (s : SystemDesign.Observer.WeatherStation) (o : Nat) :
    (SystemDesign.Observer.attach s o).observers = s.observers ++ [o] ∧
    (o ∈ s.observers →
      ∃ l₁ l₂, s.observers = l₁ ++ o :: l₂ ∧ o ∉ l₁ ∧
        (SystemDesign.Observer.detach s o).observers = l₁ ++ l₂ ∧
        (SystemDesign.Observer.detach s o).observers.length + 1 =
          s.observers.length) ∧
    (o ∉ s.observers →
      (SystemDesign.Observer.detach s o).observers = s.observers) := by
  refine ⟨rfl, ?_, ?_⟩
  · intro hmem
    rcases SystemDesign.Observer.eraseFirst_of_mem hmem with
      ⟨l₁, l₂, heq, hnm, herase⟩
    refine ⟨l₁, l₂, heq, hnm, herase, ?_⟩
    show (SystemDesign.Observer.eraseFirst s.observers o).length + 1 =
      s.observers.length
    rw [herase, heq]
    simp
    omega
  · intro hnm
    simpa [SystemDesign.Observer.detach] using
      SystemDesign.Observer.eraseFirst_of_not_mem hnm

/-- Witness for C5: the attach equation and both detach cases checked
on concrete observer lists. -/
theorem weatherStation_attach_detach_witness :
    (SystemDesign.Observer.attach
        { SystemDesign.Observer.WeatherStation.init with
          observers := [1, 2] } 3).observers = [1, 2, 3] ∧
    (SystemDesign.Observer.detach
        { SystemDesign.Observer.WeatherStation.init with
          observers := [1, 2, 1] } 1).observers = [2, 1] ∧
    (SystemDesign.Observer.detach
        { SystemDesign.Observer.WeatherStation.init with
          observers := [1, 2] } 5).observers = [1, 2] := by
  refine ⟨(weatherStation_attach_detach _ 3).1, ?_, ?_⟩
  · obtain ⟨l₁, l₂, heq, hnm, herase, hlen⟩ := (weatherStation_attach_detach
        { SystemDesign.Observer.WeatherStation.init with
          observers := [1, 2, 1] } 1).2.1 (by decide)
    have hl : l₁ ++ 1 :: l₂ = [1, 2, 1] := heq.symm
    have h0 : l₁ = [] := by
      cases l₁ with
      | nil => rfl
      | cons a t =>
          exfalso
          have ha : a = 1 := by simpa using congrArg List.head? hl
          subst ha
          exact hnm (List.mem_cons_self 1 t)
    subst h0
    have h2 : l₂ = [2, 1] := by simpa using hl
    subst h2
    simpa using herase
  · exact (weatherStation_attach_detach _ 5).2.2 (by decide)

/-- C1: for every builder state (request accumulated by any sequence of
setter calls), `build()` throws a `runtime_error` when the accumulated
URL is empty; and when the URL is non-empty, the method is one of GET,
POST, PUT, DELETE, and the timeout is non-negative, `build()` returns,
without throwing, the `HttpRequest` holding exactly the accumulated
fields. -/
theorem builder_build_validates (ops : List SystemDesign.Builder.BuilderOp) :
    ((SystemDesign.Builder.accumulate ops).url = "" →
      SystemDesign.Builder.build (SystemDesign.Builder.accumulate ops) =
        Except.error "URL is required!") ∧
    ((SystemDesign.Builder.accumulate ops).url ≠ "" →
      ((SystemDesign.Builder.accumulate ops).method = "GET" ∨
       (SystemDesign.Builder.accumulate ops).method = "POST" ∨
       (SystemDesign.Builder.accumulate ops).method = "PUT" ∨
       (SystemDesign.Builder.accumulate ops).method = "DELETE") →
      0 ≤ (SystemDesign.Builder.accumulate ops).timeout →
      SystemDesign.Builder.build (SystemDesign.Builder.accumulate ops) =
        Except.ok (SystemDesign.Builder.accumulate ops)) := by
  constructor
  · intro h
    simp [SystemDesign.Builder.build, h]
  · intro hurl hmeth htime
    unfold SystemDesign.Builder.build
    rw [if_neg hurl, if_neg, if_neg (by omega)]
    push_neg
    intro h1 h2 h3
    rcases hmeth with h | h | h | h <;> simp_all

/-- Witness for C1: a concrete setter sequence on which `build()`
succeeds and returns the accumulated request, and a concrete sequence
with an empty URL on which it throws. -/
theorem builder_build_validates_witness :
    (SystemDesign.Builder.build (SystemDesign.Builder.accumulate
        [SystemDesign.Builder.BuilderOp.setUrl "https://api.example.com/users",
         SystemDesign.Builder.BuilderOp.setMethod "POST",
         SystemDesign.Builder.BuilderOp.setTimeout 10000]) =
      Except.ok (SystemDesign.Builder.accumulate
        [SystemDesign.Builder.BuilderOp.setUrl "https://api.example.com/users",
         SystemDesign.Builder.BuilderOp.setMethod "POST",
         SystemDesign.Builder.BuilderOp.setTimeout 10000])) ∧
    (SystemDesign.Builder.build (SystemDesign.Builder.accumulate
        [SystemDesign.Builder.BuilderOp.setMethod "POST"]) =
      Except.error "URL is required!") :=
  ⟨(builder_build_validates
      [SystemDesign.Builder.BuilderOp.setUrl "https://api.example.com/users",
       SystemDesign.Builder.BuilderOp.setMethod "POST",
       SystemDesign.Builder.BuilderOp.setTimeout 10000]).2
      (by decide) (by decide) (by decide),
   (builder_build_validates
      [SystemDesign.Builder.BuilderOp.setMethod "POST"]).1 (by decide)⟩
